import Mathlib

/-!
Verification development for the `gamerank` leaderboard service.

The Go source is shallowly embedded: the MySQL player table becomes a list of
players with upsert-by-id semantics, the Redis sorted set becomes an
association list of (member, score) pairs whose descending view is obtained by
an explicit sort, the in-process LRU cache becomes a recency-ordered list of
items, and fallible store calls are driven by explicit failure flags, with
machine-integer scores modelled as unbounded `Int` (the only place the source
narrows a value is the `float64` round-trip through the Redis sorted set,
modelled explicitly by `float64OfInt`).
-/

namespace GameRank

/-- internal/model: a durable player row (id, display name, cumulative total). -/
structure Player where
  id : String
  name : String
  totalScore : Int
deriving DecidableEq, Repr

/-- internal/model: one append-only score-history record. -/
structure PlayerScoreHistory where
  playerID : String
  scoreChange : Int
  finalScore : Int
  reason : String
deriving DecidableEq, Repr

/-- internal/model: a computed rank view returned by read operations. -/
structure RankInfo where
  playerID : String
  rank : Int
  score : Int
  name : String
deriving DecidableEq, Repr

/-- Service-level error kinds (ErrPlayerNotFound, invalid N / range, store errors). -/
inductive SvcError where
  | playerNotFound
  | invalidInput
  | storeFailure
deriving DecidableEq, Repr

/-- Result of a fallible operation, mirroring Go's (value, error) returns. -/
inductive LRes (α : Type) where
  | ok : α → LRes α
  | error : SvcError → LRes α
deriving DecidableEq, Repr

/-- Extract the success value of a result, if any. -/
def LRes.toOpt {α : Type} : LRes α → Option α
  | .ok a => some a
  | .error _ => none

/-- Loop body of service.applyDenseRanking: walk the already-ordered sequence
carrying the current dense rank and the previous score; the rank is bumped by
one exactly when the score differs from the previous entry's. -/
def denseLoop (denseRank : Int) (lastScore : Int) : List RankInfo → List RankInfo
  | [] => []
  | r :: rest =>
    if r.score ≠ lastScore then
      { r with rank := denseRank + 1 } :: denseLoop (denseRank + 1) r.score rest
    else
      { r with rank := denseRank } :: denseLoop denseRank lastScore rest

/-- service.applyDenseRanking: dense-rank collapsing over a result sequence,
starting with rank 1 and the first entry's score as the initial lastScore. -/
def applyDenseRanking : List RankInfo → List RankInfo
  | [] => []
  | r0 :: rest => denseLoop 1 r0.score (r0 :: rest)

/-- The premise of the dense-collapse claim: entries come already ordered by
descending score. -/
def scoresSortedDesc : List RankInfo → Bool
  | [] => true
  | [_] => true
  | a :: b :: rest => decide (b.score ≤ a.score) && scoresSortedDesc (b :: rest)

@[reducible] def sortedByScoreDesc (l : List RankInfo) : Prop :=
  scoresSortedDesc l = true

/-- The spec's worked dense-ranking example: scores [100, 100, 80, 50, 50, 50]. -/
def denseExample : List RankInfo :=
  [⟨"p1", 0, 100, ""⟩, ⟨"p2", 0, 100, ""⟩, ⟨"p3", 0, 80, ""⟩,
   ⟨"p4", 0, 50, ""⟩, ⟨"p5", 0, 50, ""⟩, ⟨"p6", 0, 50, ""⟩]

/-- Generic keyed update on an association list: replace the value in place if
the key is present (Redis ZADD / HSET member update), append otherwise. -/
def upd {β : Type} : List (String × β) → String → β → List (String × β)
  | [], k, v => [(k, v)]
  | (k', v') :: rest, k, v =>
    if k' = k then (k, v) :: rest else (k', v') :: upd rest k v

/-- Generic keyed lookup on an association list. -/
def lookupKV {β : Type} : List (String × β) → String → Option β
  | [], _ => none
  | (k', v') :: rest, k => if k' = k then some v' else lookupKV rest k

/-- Round m to the nearest multiple of p, ties to the even multiple
(IEEE-754 round-to-nearest-even restricted to integers). -/
def roundEven (m p : Nat) : Nat :=
  let q := m / p
  let r := m % p
  if 2 * r < p then q * p
  else if p < 2 * r then (q + 1) * p
  else if q % 2 = 0 then q * p else (q + 1) * p

/-- Distance between consecutive `float64`-representable integers of magnitude
m (valid for the int64 range, m < 2 ^ 64): 1 up to 2 ^ 53, then doubling with
each extra significand bit. -/
def f64Ulp (m : Nat) : Nat :=
  if m < 2 ^ 53 then 1
  else if m < 2 ^ 54 then 2
  else if m < 2 ^ 55 then 2 ^ 2
  else if m < 2 ^ 56 then 2 ^ 3
  else if m < 2 ^ 57 then 2 ^ 4
  else if m < 2 ^ 58 then 2 ^ 5
  else if m < 2 ^ 59 then 2 ^ 6
  else if m < 2 ^ 60 then 2 ^ 7
  else if m < 2 ^ 61 then 2 ^ 8
  else if m < 2 ^ 62 then 2 ^ 9
  else if m < 2 ^ 63 then 2 ^ 10
  else 2 ^ 11

/-- Nearest `float64`-representable natural number. -/
def f64NatRound (m : Nat) : Nat := roundEven m (f64Ulp m)

/-- Go's `float64(score)` conversion of an int64 total, as the integer value of
the resulting double (conversion rounds the magnitude to the nearest
representable double, preserving the sign). Reading the score back with
`int64(z.Score)` truncates an integral double, so the read-back value is this
integer again. -/
def float64OfInt (n : Int) : Int :=
  if n < 0 then -(f64NatRound n.natAbs : Int) else (f64NatRound n.natAbs : Int)

/-- The Redis adapter's state: the leaderboard sorted set as an association
list member ↦ stored score (the score being the `float64`-rounded projection),
plus the per-player auxiliary hash holding the display name. -/
structure RedisState where
  zset : List (String × Int)
  rnames : List (String × String)
deriving DecidableEq, Repr

/-- `a` sorts before `b` in the descending (ZREVRANGE) view: higher score
first, ties broken by member. The claims only use that this view is a
permutation of the set, so the tie-break direction is irrelevant to them. -/
def zBefore (a b : String × Int) : Bool :=
  decide (b.2 < a.2) || (decide (a.2 = b.2) && decide (a.1 < b.1))

/-- Insert an entry into an already-built descending view. -/
def insertZ (a : String × Int) : List (String × Int) → List (String × Int)
  | [] => [a]
  | b :: rest => if zBefore a b then a :: b :: rest else b :: insertZ a rest

/-- The descending (highest score first) view of the sorted set, as produced by
ZREVRANGE over the whole key. -/
def zrevList (l : List (String × Int)) : List (String × Int) :=
  l.foldr insertZ []

/-- RedisRepository.getPlayerName: HGet of the name field, empty string when
the hash is absent. -/
def getPlayerName (r : RedisState) (pid : String) : String :=
  (lookupKV r.rnames pid).getD ""

/-- Decorate a block of (member, score) pairs fetched at 0-based offset
`start` with 1-based ranks `start + i + 1` and looked-up names, as both
GetTopPlayers (start = 0) and GetPlayerRankRange do. -/
def withRanks (r : RedisState) (start : Nat) : List (String × Int) → List RankInfo
  | [] => []
  | (k, s) :: rest =>
    ⟨k, (start : Int) + 1, s, getPlayerName r k⟩ :: withRanks r (start + 1) rest

/-- RedisRepository.GetTopPlayers: first n entries of the descending view,
ranked by position. -/
def GetTopPlayers (r : RedisState) (n : Nat) : List RankInfo :=
  withRanks r 0 ((zrevList r.zset).take n)

/-- ZREVRANK: 0-based position of a member in the descending view. -/
def zrevRank (r : RedisState) (pid : String) : Option Nat :=
  (zrevList r.zset).findIdx? (fun e => e.1 == pid)

/-- RedisRepository.GetPlayerRank: 1-based rank, NotFound for absent members. -/
def GetPlayerRankRepo (r : RedisState) (pid : String) : LRes Nat :=
  match zrevRank r pid with
  | none => .error .playerNotFound
  | some i => .ok (i + 1)

/-- RedisRepository.GetPlayerScore: ZSCORE of the member (the stored,
`float64`-projected score), NotFound for absent members. -/
def GetPlayerScoreRepo (r : RedisState) (pid : String) : LRes Int :=
  match lookupKV r.zset pid with
  | none => .error .playerNotFound
  | some s => .ok s

/-- RedisRepository.GetPlayerRankRange: look up the player's 1-based rank r,
clamp `start = max 0 (r - w/2 - 1)` (saturating Nat subtraction coincides with
the source's signed arithmetic followed by the `if start < 0` clamp), then
ZREVRANGE the inclusive block start..start+w and rank it by offset. -/
def GetPlayerRankRangeRepo (r : RedisState) (pid : String) (w : Nat) :
    LRes (List RankInfo) :=
  match GetPlayerRankRepo r pid with
  | .error e => .error e
  | .ok rank =>
    let start := rank - w / 2 - 1
    .ok (withRanks r start (((zrevList r.zset).drop start).take (w + 1)))

/-- RedisRepository.GetLeaderboardSize: ZCARD. -/
def GetLeaderboardSize (r : RedisState) : Nat := r.zset.length

/-- RedisRepository.UpdatePlayerScore: ZADD of the `float64`-projected total,
then HSET of the display name, each step guarded by a failure flag; the
returned state reflects exactly the steps that committed, and the Bool records
whether the whole call succeeded. -/
def UpdatePlayerScoreRepo (r : RedisState) (zaddFails hsetFails : Bool)
    (pid : String) (score : Int) (name : String) : RedisState × Bool :=
  if zaddFails then (r, false)
  else
    let r1 : RedisState := { r with zset := upd r.zset pid (float64OfInt score) }
    if hsetFails then (r1, false)
    else ({ r1 with rnames := upd r1.rnames pid name }, true)

/-- MySQLRepository.UpsertPlayer: INSERT ... ON DUPLICATE KEY UPDATE keyed by
id — replace the row in place when the id exists, append a new row otherwise.
Name and total are overwritten unconditionally. -/
def UpsertPlayer : List Player → Player → List Player
  | [], p => [p]
  | q :: rest, p => if q.id = p.id then p :: rest else q :: UpsertPlayer rest p

/-- MySQLRepository.GetPlayer: point lookup by primary key. -/
def GetPlayerRepo (players : List Player) (pid : String) : Option Player :=
  players.find? (fun p => p.id == pid)

/-- Combined state of both stores plus the append-only history table. -/
structure SysState where
  mysql : List Player
  history : List PlayerScoreHistory
  redis : RedisState
deriving DecidableEq, Repr

/-- The durable total the service reads at the start of UpdateScore: NotFound
is treated as total 0 (the player is created by the first delta). -/
def durableTotal (st : SysState) (pid : String) : Int :=
  match GetPlayerRepo st.mysql pid with
  | some p => p.totalScore
  | none => 0

/-- Failure injection for one UpdateScore call: each flag makes the
corresponding store call return an error. -/
structure UpdateFailures where
  mysqlGetFails : Bool
  upsertFails : Bool
  historyFails : Bool
  zaddFails : Bool
  hsetFails : Bool
deriving DecidableEq, Repr

/-- All five store calls succeed. -/
def noUpdateFailure : UpdateFailures := ⟨false, false, false, false, false⟩

/-- LeaderboardService.UpdateScore: read the current durable row (NotFound ⇒
total 0), compute `finalScore = currentTotal + incrScore`, upsert the durable
row (id, name, finalScore), append a history record (failure logged and
swallowed), project into Redis via UpdatePlayerScore (failure logged and
swallowed), and return success once the durable upsert committed. -/
def UpdateScore (st : SysState) (fp : UpdateFailures) (pid : String)
    (incrScore : Int) (name reason : String) : LRes SysState :=
  if fp.mysqlGetFails then .error .storeFailure
  else
    let finalScore :=
      match GetPlayerRepo st.mysql pid with
      | some p => p.totalScore + incrScore
      | none => incrScore
    if fp.upsertFails then .error .storeFailure
    else
      let st1 : SysState :=
        { st with mysql := UpsertPlayer st.mysql ⟨pid, name, finalScore⟩ }
      let st2 : SysState :=
        if fp.historyFails then st1
        else { st1 with history := st1.history ++ [⟨pid, incrScore, finalScore, reason⟩] }
      let st3 : SysState :=
        { st2 with
          redis := (UpdatePlayerScoreRepo st2.redis fp.zaddFails fp.hsetFails
            pid finalScore name).1 }
      .ok st3

/-- One call in a sequence of UpdateScore invocations for a fixed player. -/
structure UpdateCall where
  fp : UpdateFailures
  incr : Int
  name : String
  reason : String
deriving DecidableEq, Repr

/-- Apply a sequence of UpdateScore calls for one player; a call that errors
happens before any store mutation, so it leaves the state unchanged. -/
def applyCalls (st : SysState) (pid : String) : List UpdateCall → SysState
  | [] => st
  | c :: cs =>
    match UpdateScore st c.fp pid c.incr c.name c.reason with
    | .ok st' => applyCalls st' pid cs
    | .error _ => applyCalls st pid cs

/-- Failure injection for the two Redis sub-fetches inside the dense-rank
computation of a single-player lookup. -/
structure DenseFetchFailures where
  sizeFails : Bool
  topFails : Bool
deriving DecidableEq, Repr

/-- Both dense sub-fetches succeed. -/
def noDenseFailure : DenseFetchFailures := ⟨false, false⟩

/-- LeaderboardService.calculateDenseRank: fetch the leaderboard size and the
whole top list (each sub-fetch returning 0 on failure, after logging), collect
the distinct scores, and return one plus the number of distinct scores
strictly greater than the player's. -/
def calculateDenseRank (r : RedisState) (fp : DenseFetchFailures)
    (score : Int) : Int :=
  if fp.sizeFails then 0
  else
    let size := GetLeaderboardSize r
    if fp.topFails then 0
    else
      let top := GetTopPlayers r size
      let uniq := (top.map RankInfo.score).dedup
      ((uniq.filter (fun s => decide (score < s))).length : Int) + 1

/-- LeaderboardService.GetPlayerRank (cache disabled): rank and score from
Redis (NotFound propagates), name enriched from MySQL (NotFound ⇒ empty name),
and under the dense policy the position rank is overridden by
calculateDenseRank. -/
def GetPlayerRankSvc (st : SysState) (dense : Bool) (fp : DenseFetchFailures)
    (pid : String) : LRes RankInfo :=
  match zrevRank st.redis pid with
  | none => .error .playerNotFound
  | some idx =>
    match lookupKV st.redis.zset pid with
    | none => .error .playerNotFound
    | some score =>
      let name :=
        match GetPlayerRepo st.mysql pid with
        | some p => p.name
        | none => ""
      let rank : Int :=
        if dense then calculateDenseRank st.redis fp score else (idx : Int) + 1
      .ok ⟨pid, rank, score, name⟩

/-- LeaderboardService.GetTopN (cache disabled): reject non-positive n, fetch
the top-n block, and apply dense collapsing when configured. -/
def GetTopNSvc (st : SysState) (dense : Bool) (n : Nat) : LRes (List RankInfo) :=
  if n = 0 then .error .invalidInput
  else
    let rankings := GetTopPlayers st.redis n
    .ok (if dense then applyDenseRanking rankings else rankings)

/-- LeaderboardService.GetPlayerRankRange: reject non-positive windows, fetch
the neighbor block from Redis, and apply dense collapsing when configured. -/
def GetPlayerRankRangeSvc (st : SysState) (dense : Bool) (pid : String)
    (w : Nat) : LRes (List RankInfo) :=
  if w = 0 then .error .invalidInput
  else
    match GetPlayerRankRangeRepo st.redis pid w with
    | .error e => .error e
    | .ok rankings => .ok (if dense then applyDenseRanking rankings else rankings)

/-- The Redis half of RebuildLeaderboard: re-project every durable player
(id, total, name) through UpdatePlayerScore, in table order, with every
projection succeeding. -/
def rebuildRedis (players : List Player) (r : RedisState) : RedisState :=
  players.foldl
    (fun acc p => (UpdatePlayerScoreRepo acc false false p.id p.totalScore p.name).1)
    r

/-- LeaderboardService.RebuildLeaderboard: read the whole durable player set
and re-project it into Redis; the durable store and history are untouched. -/
def RebuildLeaderboard (st : SysState) : SysState :=
  { st with redis := rebuildRedis st.mysql st.redis }

/-- pkg/utils.CalculateDenseRank: standalone dense-rank helper over a raw
score list (returns 1 on an empty list; otherwise one plus the number of
distinct scores strictly above the current one). -/
def CalculateDenseRankUtil (scores : List Int) (currentScore : Int) : Int :=
  if scores = [] then 1
  else
    let uniq := scores.dedup
    ((uniq.filter (fun s => decide (currentScore < s))).length : Int) + 1

/-- internal/cache: one cache item (key, opaque value, absolute expiry). -/
structure CacheItem (α : Type) where
  key : String
  value : α
  expiration : Nat
deriving DecidableEq, Repr

/-- internal/cache.LocalCache: the items map and the LRU list collapsed into a
single recency-ordered list (head = most recently used, tail = eviction
candidate), plus capacity, TTL and the hit/miss counters. -/
structure LocalCache (α : Type) where
  items : List (CacheItem α)
  capacity : Nat
  ttl : Nat
  hits : Nat
  misses : Nat
deriving DecidableEq, Repr

/-- cache.NewLocalCache: empty cache with the given capacity and the source's
fixed 5-minute TTL (modelled in seconds). -/
def NewLocalCache (α : Type) (capacity : Nat) : LocalCache α :=
  ⟨[], capacity, 300, 0, 0⟩

/-- Remove the (unique) item with the given key, leaving the rest in order. -/
def removeKeyItems {α : Type} : List (CacheItem α) → String → List (CacheItem α)
  | [], _ => []
  | i :: rest, k => if i.key = k then rest else i :: removeKeyItems rest k

/-- Lookup in the items map. -/
def findItem {α : Type} (l : List (CacheItem α)) (k : String) :
    Option (CacheItem α) :=
  l.find? (fun i => i.key == k)

/-- cache.evict: drop the tail of the LRU list (no-op when empty). -/
def evictTail {α : Type} (l : List (CacheItem α)) : List (CacheItem α) :=
  l.dropLast

/-- cache.set: an existing key is updated and moved to the front; a new key
first evicts the LRU tail when the cache is at capacity, then is pushed to the
front with a fresh expiry. -/
def LocalCache.set {α : Type} (c : LocalCache α) (now : Nat) (k : String)
    (v : α) : LocalCache α :=
  match findItem c.items k with
  | some _ => { c with items := ⟨k, v, now + c.ttl⟩ :: removeKeyItems c.items k }
  | none =>
    let afterEvict :=
      if c.capacity ≤ c.items.length then evictTail c.items else c.items
    { c with items := ⟨k, v, now + c.ttl⟩ :: afterEvict }

/-- cache.get: a missing key counts a miss; an expired entry (now strictly
after the expiry) is removed and counts a miss; a live entry moves to the
front and counts a hit. -/
def LocalCache.get {α : Type} (c : LocalCache α) (now : Nat) (k : String) :
    Option α × LocalCache α :=
  match findItem c.items k with
  | none => (none, { c with misses := c.misses + 1 })
  | some item =>
    if item.expiration < now then
      (none, { c with items := removeKeyItems c.items k, misses := c.misses + 1 })
    else
      (some item.value,
        { c with items := item :: removeKeyItems c.items k, hits := c.hits + 1 })

/-- cache.delete: remove the key if present. -/
def LocalCache.delete {α : Type} (c : LocalCache α) (k : String) : LocalCache α :=
  { c with items := removeKeyItems c.items k }

/-- cache.GetStats, restricted to the integer fields. -/
structure CacheStats where
  hits : Nat
  misses : Nat
  size : Nat
  capacity : Nat
deriving DecidableEq, Repr

/-- cache.GetStats: size is the number of stored items. -/
def LocalCache.GetStats {α : Type} (c : LocalCache α) : CacheStats :=
  ⟨c.hits, c.misses, c.items.length, c.capacity⟩

/-- One cache operation from the public surface. -/
inductive CacheOp (α : Type) where
  | set : Nat → String → α → CacheOp α
  | get : Nat → String → CacheOp α
  | del : String → CacheOp α

/-- Apply one cache operation to the cache state. -/
def applyOp {α : Type} (c : LocalCache α) : CacheOp α → LocalCache α
  | .set now k v => c.set now k v
  | .get now k => (c.get now k).2
  | .del k => c.delete k

/-- Apply a sequence of cache operations. -/
def applyOps {α : Type} (c : LocalCache α) (ops : List (CacheOp α)) :
    LocalCache α :=
  ops.foldl applyOp c

/-- Concrete states used by witnesses and counterexamples. -/
def emptySys : SysState := ⟨[], [], ⟨[], []⟩⟩

/-- The spec's delta sequence [+50, +20, -5], all store calls succeeding. -/
def deltaCalls : List UpdateCall :=
  [⟨noUpdateFailure, 50, "Ann", "r1"⟩,
   ⟨noUpdateFailure, 20, "Ann", "r2"⟩,
   ⟨noUpdateFailure, -5, "Ann", "r3"⟩]

/-- A one-player system state whose stores are consistent. -/
def onePlayerSys : SysState :=
  ⟨[⟨"p1", "Ann", 10⟩], [], ⟨[("p1", 10)], [("p1", "Ann")]⟩⟩

/-- Eleven ranked players with pairwise-distinct descending scores. -/
def elevenRedis : RedisState :=
  ⟨[("a", 110), ("b", 100), ("c", 90), ("d", 80), ("e", 70), ("f", 60),
    ("g", 50), ("h", 40), ("i", 30), ("j", 20), ("k", 10)], []⟩

/-- Three ranked players, used for neighbor-range witnesses. -/
def threeRedis : RedisState :=
  ⟨[("a", 30), ("b", 20), ("c", 10)], [("a", "A"), ("b", "B"), ("c", "C")]⟩

/-- A system state over `threeRedis` with a matching durable table. -/
def threeSys : SysState :=
  ⟨[⟨"a", "A", 30⟩, ⟨"b", "B", 20⟩, ⟨"c", "C", 10⟩], [], threeRedis⟩

/-! Lemmas about the dense-collapse loop. -/

theorem denseLoop_cons (d ls : Int) (r : RankInfo) (rest : List RankInfo) :
    denseLoop d ls (r :: rest) =
      (if r.score = ls then
        { r with rank := d } :: denseLoop d r.score rest
      else
        { r with rank := d + 1 } :: denseLoop (d + 1) r.score rest) := by
  by_cases h : r.score = ls
  · rw [denseLoop]
    simp [h]
  · rw [denseLoop]
    simp [h]

theorem denseLoop_consec (l : List RankInfo) :
    ∀ (d ls : Int) (i : Nat) (a b : RankInfo),
      (denseLoop d ls l)[i]? = some a → (denseLoop d ls l)[i + 1]? = some b →
      b.rank = if b.score = a.score then a.rank else a.rank + 1 := by
  induction l with
  | nil =>
    intro d ls i a b ha _
    simp [denseLoop] at ha
  | cons r rest ih =>
    intro d ls i a b ha hb
    rw [denseLoop_cons] at ha hb
    set d' : Int := if r.score = ls then d else d + 1 with hd'
    have hsplit :
        (if r.score = ls then
          { r with rank := d } :: denseLoop d r.score rest
        else
          { r with rank := d + 1 } :: denseLoop (d + 1) r.score rest) =
        { r with rank := d' } :: denseLoop d' r.score rest := by
      by_cases h : r.score = ls <;> simp [hd', h]
    rw [hsplit] at ha hb
    cases i with
    | zero =>
      simp only [List.getElem?_cons_zero, Option.some.injEq] at ha
      simp only [List.getElem?_cons_succ] at hb
      cases rest with
      | nil => simp [denseLoop] at hb
      | cons r' rest2 =>
        rw [denseLoop_cons] at hb
        by_cases h2 : r'.score = r.score
        · simp only [h2, if_true, List.getElem?_cons_zero, Option.some.injEq] at hb
          subst ha
          subst hb
          simp [h2]
        · simp only [h2, if_false, List.getElem?_cons_zero, Option.some.injEq] at hb
          subst ha
          subst hb
          simp [h2]
    | succ j =>
      simp only [List.getElem?_cons_succ] at ha hb
      exact ih d' r.score j a b ha hb

theorem denseLoop_rank_ge (l : List RankInfo) :
    ∀ (d ls : Int) (x : RankInfo), 1 ≤ d → x ∈ denseLoop d ls l → 1 ≤ x.rank := by
  induction l with
  | nil => intro d ls x _ hx; simp [denseLoop] at hx
  | cons r rest ih =>
    intro d ls x hd hx
    rw [denseLoop_cons] at hx
    by_cases h : r.score = ls
    · simp only [h, if_true, List.mem_cons] at hx
      rcases hx with hx | hx
      · subst hx; simpa using hd
      · exact ih d ls x hd hx
    · simp only [h, if_false, List.mem_cons] at hx
      rcases hx with hx | hx
      · subst hx; simp only; omega
      · exact ih (d + 1) r.score x (by omega) hx

theorem applyDenseRanking_rank_ge (l : List RankInfo) (x : RankInfo)
    (hx : x ∈ applyDenseRanking l) : 1 ≤ x.rank := by
  cases l with
  | nil => simp [applyDenseRanking] at hx
  | cons r0 rest => exact denseLoop_rank_ge (r0 :: rest) 1 r0.score x le_rfl hx

/-- Claim C3: on a sequence already ordered by descending score, the dense
collapsing used by GetTopN and GetPlayerRankRange gives the first entry rank
1, keeps the rank across consecutive equal scores, and increments it by
exactly 1 at each score change; on scores [100, 100, 80, 50, 50, 50] the
ranks are [1, 1, 2, 3, 3, 3]. -/
theorem C3_applyDenseRanking_collapse :
    (∀ l : List RankInfo, sortedByScoreDesc l →
      (∀ a, (applyDenseRanking l)[0]? = some a → a.rank = 1) ∧
      (∀ (i : Nat) (a b : RankInfo),
        (applyDenseRanking l)[i]? = some a →
        (applyDenseRanking l)[i + 1]? = some b →
        (b.score = a.score → b.rank = a.rank) ∧
        (b.score ≠ a.score → b.rank = a.rank + 1))) ∧
    (applyDenseRanking denseExample).map RankInfo.rank = [1, 1, 2, 3, 3, 3] := by
  constructor
  · intro l _hsorted
    constructor
    · intro a ha
      cases l with
      | nil => simp [applyDenseRanking] at ha
      | cons r0 rest =>
        rw [applyDenseRanking, denseLoop] at ha
        simp at ha
        subst ha
        rfl
    · intro i a b ha hb
      cases l with
      | nil => simp [applyDenseRanking] at ha
      | cons r0 rest =>
        rw [applyDenseRanking] at ha hb
        have h := denseLoop_consec (r0 :: rest) 1 r0.score i a b ha hb
        constructor
        · intro hs; rw [h, if_pos hs]
        · intro hs; rw [h, if_neg hs]
  · decide

/-- Witness for C3 at the spec's example leaderboard. -/
theorem C3_witness :
    sortedByScoreDesc denseExample ∧
    (∀ a, (applyDenseRanking denseExample)[0]? = some a → a.rank = 1) ∧
    (applyDenseRanking denseExample).map RankInfo.rank = [1, 1, 2, 3, 3, 3] :=
  ⟨by decide, (C3_applyDenseRanking_collapse.1 denseExample (by decide)).1,
    C3_applyDenseRanking_collapse.2⟩

/-! Lemmas about the durable upsert and the write path. -/

theorem GetPlayerRepo_upsert_self (players : List Player) (pid name : String)
    (tot : Int) :
    GetPlayerRepo (UpsertPlayer players ⟨pid, name, tot⟩) pid =
      some ⟨pid, name, tot⟩ := by
  induction players with
  | nil => simp [UpsertPlayer, GetPlayerRepo, List.find?]
  | cons q rest ih =>
    by_cases h : q.id = pid
    · simp [UpsertPlayer, h, GetPlayerRepo, List.find?]
    · simp only [UpsertPlayer, h, if_false, ite_false]
      simp only [GetPlayerRepo, List.find?] at ih ⊢
      have hq : (q.id == pid) = false := by simp [h]
      rw [hq]
      exact ih

theorem updateScore_mysql_shape (st : SysState) (fp : UpdateFailures)
    (pid : String) (incr : Int) (name reason : String)
    (h1 : fp.mysqlGetFails = false) (h2 : fp.upsertFails = false) :
    ∃ st', UpdateScore st fp pid incr name reason = .ok st' ∧
      st'.mysql = UpsertPlayer st.mysql ⟨pid, name, durableTotal st pid + incr⟩ ∧
      st'.redis = (UpdatePlayerScoreRepo st.redis fp.zaddFails fp.hsetFails pid
        (durableTotal st pid + incr) name).1 := by
  simp only [UpdateScore, h1, h2, Bool.false_eq_true, if_false]
  refine ⟨_, rfl, ?_, ?_⟩
  · cases hfind : GetPlayerRepo st.mysql pid <;> cases hh : fp.historyFails <;>
      simp [durableTotal, hfind, hh]
  · cases hfind : GetPlayerRepo st.mysql pid <;> cases hh : fp.historyFails <;>
      simp [durableTotal, hfind, hh]

theorem applyCalls_durableTotal (pid : String) (calls : List UpdateCall) :
    ∀ st : SysState,
      (∀ c ∈ calls, c.fp.mysqlGetFails = false ∧ c.fp.upsertFails = false) →
      durableTotal (applyCalls st pid calls) pid =
        durableTotal st pid + (calls.map UpdateCall.incr).sum := by
  induction calls with
  | nil => intro st _; simp [applyCalls]
  | cons c cs ih =>
    intro st h
    obtain ⟨st', hok, hmy, _⟩ :=
      updateScore_mysql_shape st c.fp pid c.incr c.name c.reason
        (h c (by simp)).1 (h c (by simp)).2
    have ht : durableTotal st' pid = durableTotal st pid + c.incr := by
      unfold durableTotal
      rw [hmy, GetPlayerRepo_upsert_self]
      rfl
    simp only [applyCalls, hok]
    rw [ih st' (fun x hx => h x (List.mem_cons_of_mem _ hx)), ht]
    simp only [List.map_cons, List.sum_cons]
    ring

/-- Claim C1: a sequence of successful UpdateScore calls for a player absent
from the Durable Store leaves a durable total equal to the sum of the deltas
(the first call counts from total 0, and history/projection failures along the
way do not change the durable total). -/
theorem C1_durable_total_is_sum_of_deltas (st : SysState) (pid : String)
    (calls : List UpdateCall)
    (hok : ∀ c ∈ calls, c.fp.mysqlGetFails = false ∧ c.fp.upsertFails = false)
    (h0 : GetPlayerRepo st.mysql pid = none) :
    durableTotal (applyCalls st pid calls) pid =
      (calls.map UpdateCall.incr).sum := by
  rw [applyCalls_durableTotal pid calls st hok]
  simp [durableTotal, h0]

/-- Witness for C1: deltas [+50, +20, -5] from an empty system yield 65. -/
theorem C1_witness :
    durableTotal (applyCalls emptySys "p1" deltaCalls) "p1" = 65 := by
  have h := C1_durable_total_is_sum_of_deltas emptySys "p1" deltaCalls
    (by decide) rfl
  rw [h]
  decide

/-- Claim C2: whenever the Durable Store read and upsert succeed, UpdateScore
returns success — regardless of whether the history append or either half of
the Ranking Store projection fails. -/
theorem C2_success_despite_side_effect_failures (st : SysState)
    (fp : UpdateFailures) (pid : String) (incr : Int) (name reason : String)
    (h1 : fp.mysqlGetFails = false) (h2 : fp.upsertFails = false) :
    ∃ st', UpdateScore st fp pid incr name reason = .ok st' := by
  obtain ⟨st', hok, -, -⟩ :=
    updateScore_mysql_shape st fp pid incr name reason h1 h2
  exact ⟨st', hok⟩

/-- Witness for C2: the history append and both Redis writes fail, yet the
call succeeds. -/
theorem C2_witness :
    ∃ st', UpdateScore onePlayerSys ⟨false, false, true, true, true⟩
      "p1" 5 "Bea" "w" = .ok st' :=
  C2_success_despite_side_effect_failures onePlayerSys
    ⟨false, false, true, true, true⟩ "p1" 5 "Bea" "w" rfl rfl

/-! Association-list lemmas shared by the projection and rebuild proofs. -/

theorem lookupKV_upd_self {β : Type} (l : List (String × β)) (k : String)
    (v : β) : lookupKV (upd l k v) k = some v := by
  induction l with
  | nil => simp [upd, lookupKV]
  | cons e rest ih =>
    by_cases h : e.1 = k
    · simp [upd, h, lookupKV]
    · simp [upd, h, lookupKV, ih]

theorem lookupKV_upd_other {β : Type} (l : List (String × β)) (k' k : String)
    (v : β) (h : k' ≠ k) : lookupKV (upd l k' v) k = lookupKV l k := by
  induction l with
  | nil => simp [upd, lookupKV, h]
  | cons e rest ih =>
    by_cases he : e.1 = k'
    · simp [upd, he, lookupKV, h]
    · simp [upd, he, lookupKV, ih]

theorem upd_of_lookup {β : Type} (l : List (String × β)) (k : String) (v : β)
    (h : lookupKV l k = some v) : upd l k v = l := by
  induction l with
  | nil => simp [lookupKV] at h
  | cons e rest ih =>
    obtain ⟨e1, e2⟩ := e
    by_cases he : e1 = k
    · simp only [lookupKV, he, if_pos rfl, if_true, Option.some.injEq] at h
      subst he
      subst h
      simp [upd]
    · simp only [lookupKV, he, if_false, ite_false] at h
      simp [upd, he, ih h]

theorem updatePlayerScoreRepo_ok_shape (r : RedisState) (pid : String)
    (score : Int) (name : String) :
    (UpdatePlayerScoreRepo r false false pid score name).1 =
      ⟨upd r.zset pid (float64OfInt score), upd r.rnames pid name⟩ := rfl

/-- Claim C9 (amended): a successful UpdateScore always overwrites the durable
display name with the call's name argument — including the empty string — and
overwrites the Ranking Store's auxiliary name whenever the projection's two
Redis writes succeed. -/
theorem C9_name_always_overwritten (st : SysState) (fp : UpdateFailures)
    (pid : String) (incr : Int) (name reason : String) (st' : SysState)
    (h1 : fp.mysqlGetFails = false) (h2 : fp.upsertFails = false)
    (h : UpdateScore st fp pid incr name reason = .ok st') :
    (GetPlayerRepo st'.mysql pid).map Player.name = some name ∧
    (fp.zaddFails = false → fp.hsetFails = false →
      lookupKV st'.redis.rnames pid = some name) := by
  obtain ⟨st'', hok, hmy, hrd⟩ :=
    updateScore_mysql_shape st fp pid incr name reason h1 h2
  rw [hok] at h
  injection h with h
  subst h
  constructor
  · rw [hmy, GetPlayerRepo_upsert_self]
    rfl
  · intro hz hh
    rw [hrd, hz, hh, updatePlayerScoreRepo_ok_shape]
    exact lookupKV_upd_self _ _ _

/-- Counterexample for C9 as stated: with the HSET half of the projection
failing, the call still succeeds but the Ranking Store keeps the old name
"Ann" instead of the call's empty name argument. -/
theorem C9_counterexample :
    (UpdateScore onePlayerSys ⟨false, false, false, false, true⟩
        "p1" 5 "" "w").toOpt.map (fun s => lookupKV s.redis.rnames "p1") =
      some (some "Ann") ∧ some (some "Ann") ≠ some (some ("" : String)) := by
  constructor
  · rfl
  · decide

/-- Witness for C9: a fully successful score-only update with an empty name
erases the previously stored name "Ann" in both stores. -/
theorem C9_witness :
    ∃ st', UpdateScore onePlayerSys noUpdateFailure "p1" 5 "" "w" = .ok st' ∧
      (GetPlayerRepo st'.mysql "p1").map Player.name = some "" ∧
      lookupKV st'.redis.rnames "p1" = some "" := by
  refine ⟨_, rfl, ?_⟩
  have h := C9_name_always_overwritten onePlayerSys noUpdateFailure
    "p1" 5 "" "w" _ rfl rfl rfl
  exact ⟨h.1, h.2 rfl rfl⟩

/-! Rebuild idempotence. -/

theorem rebuildRedis_cons (p : Player) (rest : List Player) (r : RedisState) :
    rebuildRedis (p :: rest) r =
      rebuildRedis rest ⟨upd r.zset p.id (float64OfInt p.totalScore),
        upd r.rnames p.id p.name⟩ := rfl

theorem rebuildRedis_lookup_preserved (players : List Player) :
    ∀ (r : RedisState) (k : String), (∀ p ∈ players, p.id ≠ k) →
      lookupKV (rebuildRedis players r).zset k = lookupKV r.zset k ∧
      lookupKV (rebuildRedis players r).rnames k = lookupKV r.rnames k := by
  induction players with
  | nil => intro r k _; exact ⟨rfl, rfl⟩
  | cons p rest ih =>
    intro r k h
    rw [rebuildRedis_cons]
    have hp : p.id ≠ k := h p (by simp)
    have hrest := ih
      ⟨upd r.zset p.id (float64OfInt p.totalScore), upd r.rnames p.id p.name⟩
      k (fun q hq => h q (List.mem_cons_of_mem _ hq))
    rw [hrest.1, hrest.2]
    exact ⟨lookupKV_upd_other _ _ _ _ hp, lookupKV_upd_other _ _ _ _ hp⟩

theorem rebuildRedis_lookup_self (players : List Player)
    (hnd : (players.map Player.id).Nodup) (p : Player) (hp : p ∈ players) :
    ∀ r : RedisState,
      lookupKV (rebuildRedis players r).zset p.id =
        some (float64OfInt p.totalScore) ∧
      lookupKV (rebuildRedis players r).rnames p.id = some p.name := by
  induction players with
  | nil => cases hp
  | cons q rest ih =>
    intro r
    simp only [List.map_cons, List.nodup_cons] at hnd
    rcases List.mem_cons.mp hp with hq | hq
    · subst hq
      rw [rebuildRedis_cons]
      have hne : ∀ x ∈ rest, x.id ≠ p.id := by
        intro x hx hcontra
        exact hnd.1 (hcontra ▸ List.mem_map_of_mem Player.id hx)
      have hpres := rebuildRedis_lookup_preserved rest
        ⟨upd r.zset p.id (float64OfInt p.totalScore), upd r.rnames p.id p.name⟩
        p.id hne
      rw [hpres.1, hpres.2]
      exact ⟨lookupKV_upd_self _ _ _, lookupKV_upd_self _ _ _⟩
    · rw [rebuildRedis_cons]
      exact ih hnd.2 hq _

theorem rebuildRedis_fixed (players : List Player) :
    ∀ r : RedisState,
      (∀ p ∈ players,
        lookupKV r.zset p.id = some (float64OfInt p.totalScore) ∧
        lookupKV r.rnames p.id = some p.name) →
      rebuildRedis players r = r := by
  induction players with
  | nil => intro r _; rfl
  | cons p rest ih =>
    intro r h
    have hp := h p (by simp)
    rw [rebuildRedis_cons, upd_of_lookup _ _ _ hp.1, upd_of_lookup _ _ _ hp.2]
    exact ih r (fun q hq => h q (List.mem_cons_of_mem _ hq))

/-- Claim C8: with a valid durable table (ids are unique, being the primary
key), running RebuildLeaderboard twice with no intervening writes produces
exactly the same system state — in particular the same observable Ranking
Store rank and score results — as running it once. -/
theorem C8_rebuild_idempotent (st : SysState)
    (hnd : (st.mysql.map Player.id).Nodup) :
    RebuildLeaderboard (RebuildLeaderboard st) = RebuildLeaderboard st := by
  have hfix :
      rebuildRedis st.mysql (rebuildRedis st.mysql st.redis) =
        rebuildRedis st.mysql st.redis :=
    rebuildRedis_fixed st.mysql _
      (fun p hp => rebuildRedis_lookup_self st.mysql hnd p hp st.redis)
  show ({ st with
      redis := rebuildRedis st.mysql (rebuildRedis st.mysql st.redis) } : SysState) =
    { st with redis := rebuildRedis st.mysql st.redis }
  rw [hfix]

/-- Witness for C8 on a concrete three-player durable table. -/
theorem C8_witness :
    RebuildLeaderboard (RebuildLeaderboard threeSys) = RebuildLeaderboard threeSys :=
  C8_rebuild_idempotent threeSys (by decide)

/-! The float64 round-trip through the Ranking Store. -/

theorem f64NatRound_small (m : Nat) (h : m ≤ 2 ^ 53) : f64NatRound m = m := by
  rcases Nat.lt_or_ge m (2 ^ 53) with hlt | hge
  · have hlt' : m < 9007199254740992 := by simpa using hlt
    unfold f64NatRound f64Ulp roundEven
    simp [hlt', Nat.mod_one, Nat.div_one]
  · have hm : m = 2 ^ 53 := le_antisymm h hge
    subst hm
    decide

theorem float64OfInt_exact (n : Int) (h : n.natAbs ≤ 2 ^ 53) :
    float64OfInt n = n := by
  unfold float64OfInt
  by_cases hn : n < 0
  · rw [if_pos hn, f64NatRound_small _ h]
    omega
  · rw [if_neg hn, f64NatRound_small _ h]
    omega

/-- Claim C10: the projection stores `float64(total)` and reads truncate back
to int64, so every total of magnitude at most 2^53 round-trips exactly through
the Ranking Store, while the int64 total 2^53 + 1 reads back as 2^53. -/
theorem C10_float64_roundtrip :
    (∀ (r : RedisState) (pid name : String) (n : Int), n.natAbs ≤ 2 ^ 53 →
      GetPlayerScoreRepo (UpdatePlayerScoreRepo r false false pid n name).1
        pid = .ok n) ∧
    GetPlayerScoreRepo (UpdatePlayerScoreRepo ⟨[], []⟩ false false "p"
      (2 ^ 53 + 1) "n").1 "p" = .ok (2 ^ 53) ∧
    ((2 ^ 53 : Int) ≠ 2 ^ 53 + 1) := by
  refine ⟨?_, by decide, by decide⟩
  intro r pid name n h
  rw [updatePlayerScoreRepo_ok_shape]
  show GetPlayerScoreRepo
    ⟨upd r.zset pid (float64OfInt n), upd r.rnames pid name⟩ pid = .ok n
  unfold GetPlayerScoreRepo
  rw [show (RedisState.mk (upd r.zset pid (float64OfInt n))
      (upd r.rnames pid name)).zset = upd r.zset pid (float64OfInt n) from rfl]
  rw [lookupKV_upd_self, float64OfInt_exact n h]

/-- Witness for C10: 42 round-trips exactly; 2^53 + 1 comes back as 2^53. -/
theorem C10_witness :
    GetPlayerScoreRepo (UpdatePlayerScoreRepo ⟨[], []⟩ false false "p"
      42 "n").1 "p" = .ok 42 ∧
    GetPlayerScoreRepo (UpdatePlayerScoreRepo ⟨[], []⟩ false false "p"
      (2 ^ 53 + 1) "n").1 "p" = .ok (2 ^ 53) :=
  ⟨C10_float64_roundtrip.1 ⟨[], []⟩ "p" "n" 42 (by decide),
    C10_float64_roundtrip.2.1⟩

/-! LRU cache lemmas. -/

theorem removeKeyItems_length_le {α : Type} (l : List (CacheItem α))
    (k : String) : (removeKeyItems l k).length ≤ l.length := by
  induction l with
  | nil => simp [removeKeyItems]
  | cons i rest ih =>
    by_cases h : i.key = k
    · simp [removeKeyItems, h]
    · simp only [removeKeyItems, h, if_false, ite_false, List.length_cons]
      omega

theorem removeKeyItems_length_of_found {α : Type} (l : List (CacheItem α))
    (k : String) (it : CacheItem α) (h : findItem l k = some it) :
    (removeKeyItems l k).length + 1 = l.length := by
  induction l with
  | nil => simp [findItem, List.find?] at h
  | cons i rest ih =>
    by_cases hk : i.key = k
    · simp [removeKeyItems, hk]
    · have hb : (i.key == k) = false := by simp [hk]
      simp only [findItem, List.find?, hb] at h
      simp only [removeKeyItems, hk, if_false, ite_false, List.length_cons]
      rw [← ih h]

theorem applyOp_capacity {α : Type} (c : LocalCache α) (op : CacheOp α) :
    (applyOp c op).capacity = c.capacity := by
  cases op with
  | set now k v =>
    simp only [applyOp, LocalCache.set]
    cases hf : findItem c.items k <;> simp
  | get now k =>
    simp only [applyOp, LocalCache.get]
    cases hf : findItem c.items k with
    | none => simp
    | some it => by_cases h : it.expiration < now <;> simp [h]
  | del k => simp [applyOp, LocalCache.delete]

theorem applyOp_length {α : Type} (c : LocalCache α) (op : CacheOp α)
    (hcap : 1 ≤ c.capacity) (h : c.items.length ≤ c.capacity) :
    (applyOp c op).items.length ≤ c.capacity := by
  cases op with
  | set now k v =>
    simp only [applyOp, LocalCache.set]
    cases hf : findItem c.items k with
    | some it =>
      have := removeKeyItems_length_of_found c.items k it hf
      simp only [List.length_cons]
      omega
    | none =>
      by_cases hful : c.capacity ≤ c.items.length
      · have hdl : (evictTail c.items).length = c.items.length - 1 := by
          simp [evictTail]
        simp only [hful, if_true, ite_true, List.length_cons]
        omega
      · simp only [hful, if_false, ite_false, List.length_cons]
        omega
  | get now k =>
    simp only [applyOp, LocalCache.get]
    cases hf : findItem c.items k with
    | none => simpa using h
    | some it =>
      by_cases hex : it.expiration < now
      · simp only [hex, if_true, ite_true]
        exact le_trans (removeKeyItems_length_le c.items k) h
      · simp only [hex, if_false, ite_false]
        have := removeKeyItems_length_of_found c.items k it hf
        simp only [List.length_cons]
        omega
  | del k =>
    simp only [applyOp, LocalCache.delete]
    have := removeKeyItems_length_le c.items k
    omega

theorem applyOps_length {α : Type} (ops : List (CacheOp α)) :
    ∀ c : LocalCache α, 1 ≤ c.capacity → c.items.length ≤ c.capacity →
      (applyOps c ops).capacity = c.capacity ∧
      (applyOps c ops).items.length ≤ c.capacity := by
  induction ops with
  | nil => intro c _ h; exact ⟨rfl, h⟩
  | cons op rest ih =>
    intro c hcap h
    have hc := applyOp_capacity c op
    have hl := applyOp_length c op hcap h
    have := ih (applyOp c op) (hc ▸ hcap) (hc ▸ hl)
    simp only [applyOps, List.foldl_cons] at *
    exact ⟨this.1.trans hc, hc ▸ this.2⟩

theorem findItem_eq_none {α : Type} (l : List (CacheItem α)) (k : String)
    (h : k ∉ l.map CacheItem.key) : findItem l k = none := by
  rw [findItem, List.find?_eq_none]
  intro it hit
  simp only [beq_iff_eq]
  intro hk
  exact h (hk ▸ List.mem_map_of_mem CacheItem.key hit)

theorem set_fresh_keys {α : Type} (c : LocalCache α) (now : Nat) (k : String)
    (v : α) (hk : k ∉ c.items.map CacheItem.key) :
    (c.set now k v).items.map CacheItem.key =
      k :: (if c.capacity ≤ c.items.length then
        (c.items.map CacheItem.key).dropLast
      else c.items.map CacheItem.key) := by
  simp only [LocalCache.set, findItem_eq_none c.items k hk]
  by_cases hful : c.capacity ≤ c.items.length
  · simp [hful, evictTail, List.map_dropLast]
  · simp [hful]

theorem applyOps_fresh {α : Type} (ks : List (String × α)) :
    ∀ c : LocalCache α, 1 ≤ c.capacity →
      (∀ p ∈ ks, p.1 ∉ c.items.map CacheItem.key) →
      (ks.map Prod.fst).Nodup →
      c.items.length ≤ c.capacity →
      (applyOps c (ks.map (fun p => CacheOp.set 0 p.1 p.2))).items.map
          CacheItem.key =
        ((ks.map Prod.fst).reverse ++ c.items.map CacheItem.key).take
          c.capacity := by
  induction ks with
  | nil =>
    intro c _ _ _ hlen
    simp only [List.map_nil, applyOps, List.foldl_nil, List.reverse_nil,
      List.nil_append]
    rw [List.take_of_length_le]
    simpa using hlen
  | cons p rest ih =>
    intro c hcap hfresh hnodup hlen
    simp only [List.map_cons, applyOps, List.foldl_cons, applyOp] at *
    have hp1 : p.1 ∉ c.items.map CacheItem.key := hfresh p (by simp)
    have hkeys := set_fresh_keys c 0 p.1 p.2 hp1
    have hcap' : (c.set 0 p.1 p.2).capacity = c.capacity :=
      applyOp_capacity c (CacheOp.set 0 p.1 p.2)
    have hnodup' : (rest.map Prod.fst).Nodup := (List.nodup_cons.mp hnodup).2
    have hp1rest : p.1 ∉ rest.map Prod.fst := (List.nodup_cons.mp hnodup).1
    have hfresh' : ∀ q ∈ rest, q.1 ∉ (c.set 0 p.1 p.2).items.map CacheItem.key := by
      intro q hq
      rw [hkeys]
      simp only [List.mem_cons, not_or]
      constructor
      · intro hqp
        exact hp1rest (hqp ▸ List.mem_map_of_mem Prod.fst hq)
      · intro hmem
        apply hfresh q (List.mem_cons_of_mem _ hq)
        by_cases hful : c.capacity ≤ c.items.length
        · rw [if_pos hful] at hmem
          exact List.dropLast_subset _ hmem
        · rwa [if_neg hful] at hmem
    have hlen' : (c.set 0 p.1 p.2).items.length ≤ (c.set 0 p.1 p.2).capacity := by
      rw [hcap']
      exact applyOp_length c (CacheOp.set 0 p.1 p.2) hcap hlen
    have hrec := ih (c.set 0 p.1 p.2) (hcap' ▸ hcap) hfresh' hnodup' (hcap' ▸ hlen')
    rw [hcap'] at hrec
    rw [hrec, hkeys]
    by_cases hful : c.capacity ≤ c.items.length
    · rw [if_pos hful]
      have hlc : (List.map CacheItem.key c.items).length = c.capacity := by
        simpa using le_antisymm hlen hful
      rw [List.reverse_cons]
      rw [show (List.map Prod.fst rest).reverse ++ p.1 ::
          (List.map CacheItem.key c.items).dropLast =
          ((List.map Prod.fst rest).reverse ++ [p.1]) ++
            (List.map CacheItem.key c.items).dropLast from by simp]
      rw [List.take_append_eq_append_take, List.take_append_eq_append_take]
      rw [List.dropLast_eq_take, List.take_take]
      have hXlen : ((List.map Prod.fst rest).reverse ++ [p.1]).length =
          rest.length + 1 := by simp
      rw [hXlen, hlc]
      have hmin : min (c.capacity - (rest.length + 1)) (c.capacity - 1) =
          c.capacity - (rest.length + 1) := by omega
      rw [hmin]
      rw [List.take_append_eq_append_take, List.take_append_eq_append_take,
        hXlen]
    · rw [if_neg hful]
      rw [List.reverse_cons, List.append_assoc]
      rfl

/-- Claim C7: for every operation sequence the cache never holds more than its
capacity C ≥ 1 (so stats().size ≤ capacity at all times), and inserting C + 1
distinct fresh keys leaves exactly the C most recent ones — the single
least-recently-used key (the first inserted) is the one evicted. -/
theorem C7_lru_capacity_and_eviction :
    (∀ (α : Type) (C : Nat) (ops : List (CacheOp α)), 1 ≤ C →
      ((applyOps (NewLocalCache α C) ops).GetStats).size ≤ C) ∧
    (∀ (α : Type) (C : Nat) (k0 : String × α) (rest : List (String × α)),
      1 ≤ C → rest.length = C → ((k0 :: rest).map Prod.fst).Nodup →
      (applyOps (NewLocalCache α C)
          ((k0 :: rest).map (fun p => CacheOp.set 0 p.1 p.2))).items.map
          CacheItem.key = (rest.map Prod.fst).reverse) := by
  constructor
  · intro α C ops hC
    have h := applyOps_length ops (NewLocalCache α C) hC (by simp [NewLocalCache])
    simpa [LocalCache.GetStats] using h.2
  · intro α C k0 rest hC hlen hnodup
    have h := applyOps_fresh (k0 :: rest) (NewLocalCache α C) hC
      (by intro p _; simp [NewLocalCache]) hnodup (by simp [NewLocalCache])
    rw [h]
    simp only [NewLocalCache, List.map_nil, List.append_nil, List.map_cons,
      List.reverse_cons]
    rw [show ((rest.map Prod.fst).reverse ++ [k0.1]).take C =
        ((rest.map Prod.fst).reverse ++ [k0.1]).take
          (rest.map Prod.fst).reverse.length by
      congr 1
      simp [hlen]]
    exact List.take_left _ _

/-- Witness for C7 at capacity 2: a mixed op sequence keeps size ≤ 2, and
inserting the three distinct keys a, b, c leaves exactly [c, b] with a (the
least recently used) evicted. -/
theorem C7_witness :
    ((applyOps (NewLocalCache Nat 2)
        [CacheOp.set 0 "a" 1, CacheOp.set 1 "b" 2, CacheOp.get 2 "a",
          CacheOp.del "b"]).GetStats).size ≤ 2 ∧
    (applyOps (NewLocalCache Nat 2)
        (([("a", 1), ("b", 2), ("c", 3)] : List (String × Nat)).map
          (fun p => CacheOp.set 0 p.1 p.2))).items.map CacheItem.key =
      ["c", "b"] := by
  constructor
  · exact C7_lru_capacity_and_eviction.1 Nat 2 _ (by decide)
  · have h := C7_lru_capacity_and_eviction.2 Nat 2 ("a", 1)
      [("b", 2), ("c", 3)] (by decide) rfl (by decide)
    exact h.trans (by decide)

/-! The descending view is a permutation of the sorted set. -/

theorem insertZ_perm (a : String × Int) (l : List (String × Int)) :
    List.Perm (insertZ a l) (a :: l) := by
  induction l with
  | nil => exact List.Perm.refl _
  | cons b rest ih =>
    rw [insertZ]
    by_cases hz : zBefore a b = true
    · simp only [hz, if_true, ite_true]
      exact List.Perm.refl _
    · simp only [hz, if_false, ite_false]
      exact (List.Perm.cons b ih).trans (List.Perm.swap a b rest)

theorem zrevList_perm (l : List (String × Int)) :
    List.Perm (zrevList l) l := by
  induction l with
  | nil => exact List.Perm.refl _
  | cons x rest ih =>
    exact (insertZ_perm x (zrevList rest)).trans (List.Perm.cons x ih)

theorem withRanks_map_score (r : RedisState) (l : List (String × Int)) :
    ∀ start, (withRanks r start l).map RankInfo.score = l.map Prod.snd := by
  induction l with
  | nil => intro start; rfl
  | cons e rest ih =>
    intro start
    obtain ⟨k, s⟩ := e
    simp [withRanks, ih]

theorem withRanks_length (r : RedisState) (l : List (String × Int)) :
    ∀ start, (withRanks r start l).length = l.length := by
  induction l with
  | nil => intro start; rfl
  | cons e rest ih =>
    intro start
    obtain ⟨k, s⟩ := e
    simp [withRanks, ih]

theorem withRanks_rank_ge (r : RedisState) (l : List (String × Int)) :
    ∀ (start : Nat) (x : RankInfo), x ∈ withRanks r start l → 1 ≤ x.rank := by
  induction l with
  | nil => intro start x hx; simp [withRanks] at hx
  | cons e rest ih =>
    intro start x hx
    obtain ⟨k, s⟩ := e
    simp only [withRanks, List.mem_cons] at hx
    rcases hx with hx | hx
    · subst hx
      simp only
      omega
    · exact ih (start + 1) x hx

theorem dedup_filter_card (L : List Int) (score : Int) :
    (L.dedup.filter (fun s => decide (score < s))).length =
      (L.toFinset.filter (fun s => score < s)).card := by
  have h1 : (L.dedup.filter (fun s => decide (score < s))).Nodup :=
    List.Nodup.filter _ (List.nodup_dedup L)
  rw [← h1.dedup, ← List.card_toFinset, List.toFinset_filter]
  have h3 : L.dedup.toFinset = L.toFinset := by ext x; simp
  rw [h3]
  exact congrArg Finset.card (Finset.filter_congr (fun x _ => by simp))

theorem calculateDenseRank_spec (r : RedisState) (score : Int) :
    calculateDenseRank r noDenseFailure score =
      (((r.zset.map Prod.snd).toFinset.filter
        (fun s => score < s)).card : Int) + 1 := by
  have htake : (zrevList r.zset).take (GetLeaderboardSize r) = zrevList r.zset := by
    apply List.take_of_length_le
    rw [(zrevList_perm r.zset).length_eq]
    exact le_rfl
  have hscores : (GetTopPlayers r (GetLeaderboardSize r)).map RankInfo.score =
      (zrevList r.zset).map Prod.snd := by
    rw [GetTopPlayers, htake, withRanks_map_score]
  show ((((GetTopPlayers r (GetLeaderboardSize r)).map RankInfo.score).dedup.filter
      (fun s => decide (score < s))).length : Int) + 1 = _
  rw [hscores, dedup_filter_card,
    List.toFinset_eq_of_perm _ _ ((zrevList_perm r.zset).map Prod.snd)]

/-- Claim C4: under the dense policy, a successful single-player lookup
returns rank equal to one plus the number of distinct scores in the whole
leaderboard strictly greater than the player's score (when both dense
sub-fetches succeed). -/
theorem C4_dense_rank_counts_distinct_higher (st : SysState) (pid : String)
    (info : RankInfo)
    (h : GetPlayerRankSvc st true noDenseFailure pid = .ok info) :
    info.rank = (((st.redis.zset.map Prod.snd).toFinset.filter
      (fun s => info.score < s)).card : Int) + 1 := by
  unfold GetPlayerRankSvc at h
  split at h
  · exact absurd h (by simp)
  · rename_i idx heq
    split at h
    · exact absurd h (by simp)
    · rename_i score heq2
      injection h with h
      subst h
      show calculateDenseRank st.redis noDenseFailure score =
        (((st.redis.zset.map Prod.snd).toFinset.filter
          (fun s => score < s)).card : Int) + 1
      exact calculateDenseRank_spec st.redis score

/-- Witness for C4 on a concrete three-player leaderboard. -/
theorem C4_witness :
    ∃ info, GetPlayerRankSvc threeSys true noDenseFailure "b" = .ok info ∧
      info.rank = (((threeSys.redis.zset.map Prod.snd).toFinset.filter
        (fun s => info.score < s)).card : Int) + 1 := by
  refine ⟨_, rfl, ?_⟩
  exact C4_dense_rank_counts_distinct_higher threeSys "b" _ rfl

/-! Rank positivity (claim C5) and the neighbor-range block (claim C6). -/

theorem rankRangeRepo_shape (r : RedisState) (pid : String) (w : Nat)
    (l : List RankInfo) (h : GetPlayerRankRangeRepo r pid w = .ok l) :
    ∃ start : Nat,
      l = withRanks r start (((zrevList r.zset).drop start).take (w + 1)) := by
  unfold GetPlayerRankRangeRepo at h
  split at h
  · exact absurd h (by simp)
  · injection h with h
    exact ⟨_, h.symm⟩

/-- Claim C5 (amended): every rank returned by GetPlayerRank, GetTopN and
GetPlayerRankRange is at least 1 under both policies, provided — for the
dense single-player lookup — that the two Redis sub-fetches inside the dense
computation succeed; when one of them fails, GetPlayerRank returns rank 0
instead. -/
theorem C5_ranks_at_least_one (st : SysState) (dense : Bool) (pid : String)
    (n w : Nat) :
    (∀ info, GetPlayerRankSvc st dense noDenseFailure pid = .ok info →
      1 ≤ info.rank) ∧
    (∀ l info, GetTopNSvc st dense n = .ok l → info ∈ l → 1 ≤ info.rank) ∧
    (∀ l info, GetPlayerRankRangeSvc st dense pid w = .ok l → info ∈ l →
      1 ≤ info.rank) := by
  refine ⟨?_, ?_, ?_⟩
  · intro info h
    unfold GetPlayerRankSvc at h
    split at h
    · exact absurd h (by simp)
    · rename_i idx heq
      split at h
      · exact absurd h (by simp)
      · rename_i score heq2
        injection h with h
        subst h
        by_cases hd : dense = true
        · show 1 ≤ (if dense then calculateDenseRank st.redis noDenseFailure
            score else (idx : Int) + 1)
          rw [if_pos hd, calculateDenseRank_spec]
          omega
        · show 1 ≤ (if dense then calculateDenseRank st.redis noDenseFailure
            score else (idx : Int) + 1)
          rw [if_neg hd]
          omega
  · intro l info h hm
    unfold GetTopNSvc at h
    split at h
    · exact absurd h (by simp)
    · injection h with h
      subst h
      by_cases hd : dense = true
      · rw [if_pos hd] at hm
        exact applyDenseRanking_rank_ge _ info hm
      · rw [if_neg hd] at hm
        exact withRanks_rank_ge st.redis _ 0 info hm
  · intro l info h hm
    unfold GetPlayerRankRangeSvc at h
    split at h
    · exact absurd h (by simp)
    · split at h
      · exact absurd h (by simp)
      · rename_i rankings heq
        injection h with h
        subst h
        obtain ⟨start, hshape⟩ := rankRangeRepo_shape st.redis pid w rankings heq
        by_cases hd : dense = true
        · rw [if_pos hd] at hm
          exact applyDenseRanking_rank_ge _ info hm
        · rw [if_neg hd] at hm
          rw [hshape] at hm
          exact withRanks_rank_ge st.redis _ start info hm

/-- Counterexample for C5 as stated: when the leaderboard-size sub-fetch
inside the dense computation fails, GetPlayerRank succeeds but returns rank 0,
which is smaller than 1. -/
theorem C5_counterexample :
    GetPlayerRankSvc onePlayerSys true ⟨true, false⟩ "p1" =
      .ok ⟨"p1", 0, 10, "Ann"⟩ ∧ ¬ (1 ≤ (0 : Int)) := by
  exact ⟨rfl, by decide⟩

/-- Witness for C5 on a concrete leaderboard under the dense policy. -/
theorem C5_witness :
    1 ≤ (RankInfo.mk "b" 2 20 "B").rank ∧
    1 ≤ (RankInfo.mk "a" 1 30 "A").rank := by
  have h := C5_ranks_at_least_one threeSys true "b" 2 2
  exact ⟨h.1 ⟨"b", 2, 20, "B"⟩ rfl, h.2.2 _ ⟨"a", 1, 30, "A"⟩ rfl (by decide)⟩

/-- Claim C6 (amended): GetPlayerRankRange fetches the contiguous block at
0-based offset max(0, r - w/2 - 1), re-derives each rank as
start + positionInBlock + 1, and — because the end offset start + w is
inclusive — returns at most w + 1 entries (11 for window 10), never more than
the leaderboard holds; for a player ranked 1st the block starts at offset 0. -/
theorem C6_neighbor_range_block (r : RedisState) (pid : String) (w : Nat)
    (l : List RankInfo) (hw : 1 ≤ w)
    (h : GetPlayerRankRangeRepo r pid w = .ok l) :
    l.length ≤ w + 1 ∧ l.length ≤ r.zset.length ∧
    (GetPlayerRankRepo r pid = .ok 1 →
      l = withRanks r 0 ((zrevList r.zset).take (w + 1))) := by
  unfold GetPlayerRankRangeRepo at h
  split at h
  · exact absurd h (by simp)
  · rename_i rank heq
    injection h with h
    subst h
    refine ⟨?_, ?_, ?_⟩
    · rw [withRanks_length, List.length_take]
      omega
    · rw [withRanks_length, List.length_take]
      have h2 : ((zrevList r.zset).drop (rank - w / 2 - 1)).length ≤
          (zrevList r.zset).length := by
        rw [List.length_drop]
        omega
      have h3 := (zrevList_perm r.zset).length_eq
      omega
    · intro h1
      rw [heq] at h1
      injection h1 with h1
      have hstart : rank - w / 2 - 1 = 0 := by omega
      rw [hstart, List.drop_zero]

/-- Counterexample for C6 as stated: on an 11-player leaderboard the player
ranked 1st with window 10 gets a block of 11 entries, not at most 10. -/
theorem C6_counterexample :
    GetPlayerRankRepo elevenRedis "a" = .ok 1 ∧
    (GetPlayerRankRangeRepo elevenRedis "a" 10).toOpt.map List.length =
      some 11 ∧ ¬ (11 ≤ 10) := by
  refine ⟨rfl, rfl, by decide⟩

/-- Witness for C6: on a three-player leaderboard the rank-1 player with
window 10 gets the block starting at offset 0, of length at most 11. -/
theorem C6_witness :
    ∃ l, GetPlayerRankRangeRepo threeRedis "a" 10 = .ok l ∧
      l.length ≤ 11 ∧
      l = withRanks threeRedis 0 ((zrevList threeRedis.zset).take 11) := by
  refine ⟨_, rfl, ?_, ?_⟩
  · exact (C6_neighbor_range_block threeRedis "a" 10 _ (by omega) rfl).1
  · exact (C6_neighbor_range_block threeRedis "a" 10 _ (by omega) rfl).2.2 rfl

end GameRank
